import Mathlib

/-!
Verification of `autogpt/commands/web_selenium.py`.

The module drives a Selenium browser session; its algorithmic core is the
text-normalization pipeline of `scrape_text_with_selenium` and the
link-truncation step of `browse_website`.  We shallow-embed:

* the Python string methods `str.splitlines`, `str.strip`, `str.split("  ")`
  and `"\n".join` over `List Char` (line breaks are modelled by `'\n'`,
  whitespace by the ASCII whitespace characters Python strips);
* the parsed HTML document as a tree of text and element nodes, with
  BeautifulSoup's `extract()` of script/style elements and `get_text()`;
* the QA helpers as functions into `Except String _`, where `Except.error`
  models a propagating Python exception and `try/except` is an explicit
  `match`;
* the browser-driver lifecycle as explicit event traces.

`extract_hyperlinks` / `format_hyperlinks` live in `autogpt.processing.html`,
outside this module; they are modelled from the specification where needed.
-/

/-- ASCII whitespace characters removed by Python `str.strip()`. -/
def isPySpace (c : Char) : Bool :=
  c = ' ' || c = '\t' || c = '\n' || c = '\r' || c = '\x0b' || c = '\x0c'

/-- Python `str.strip()`: drop leading and trailing whitespace. -/
def pyStrip (l : List Char) : List Char :=
  (((l.dropWhile isPySpace).reverse.dropWhile isPySpace)).reverse

/-- Prepend a character to the first block of a split result. -/
def consHead (c : Char) : List (List Char) → List (List Char)
  | [] => [[c]]
  | h :: t => (c :: h) :: t

/-- Split a character list at each `'\n'` (the separators are consumed). -/
def splitNl : List Char → List (List Char)
  | [] => [[]]
  | c :: rest => if c = '\n' then [] :: splitNl rest else consHead c (splitNl rest)

/-- Python `str.splitlines()`: split at line breaks; a trailing line break
produces no trailing empty line, and the empty string yields `[]`. -/
def pySplitlines (l : List Char) : List (List Char) :=
  let p := splitNl l
  if p.getLast? = some [] then p.dropLast else p

/-- Python `str.split("  ")`: split at each non-overlapping occurrence of two
consecutive spaces, scanning left to right. -/
def split2 : List Char → List (List Char)
  | [] => [[]]
  | [c] => [[c]]
  | c1 :: c2 :: rest =>
    if c1 = ' ' ∧ c2 = ' ' then [] :: split2 rest
    else consHead c1 (split2 (c2 :: rest))

/-- `"\n".join`: interleave `'\n'` between the blocks. -/
def joinNl : List (List Char) → List Char
  | [] => []
  | [p] => p
  | p :: rest => p ++ '\n' :: joinNl rest

/-- The line/fragment pipeline of `scrape_text_with_selenium` (lines 178-180):
`lines = (line.strip() for line in text.splitlines())`,
`chunks = (phrase.strip() for line in lines for phrase in line.split("  "))`,
keeping only the non-empty chunks of `"\n".join(chunk for chunk in chunks if chunk)`. -/
def pyChunks (l : List Char) : List (List Char) :=
  ((((pySplitlines l).map pyStrip).flatMap
      (fun line => (split2 line).map pyStrip)).filter (fun c => !c.isEmpty))

/-- The whole whitespace-normalization step of `scrape_text_with_selenium`:
`text = "\n".join(chunk for chunk in chunks if chunk)`. -/
def pyNormalizeChars (l : List Char) : List Char :=
  joinNl (pyChunks l)

/-- String-level wrapper of the normalization pipeline. -/
def clean_text (s : String) : String :=
  ⟨pyNormalizeChars s.data⟩

/-- Does a character list contain two consecutive spaces? -/
def hasDSp : List Char → Bool
  | c1 :: c2 :: rest => (c1 = ' ' && c2 = ' ') || hasDSp (c2 :: rest)
  | _ => false

example : pyStrip "  ab ".data = "ab".data := by decide
example : splitNl "a\n\nb".data = ["a".data, [], "b".data] := by decide
example : pySplitlines "a\nb\n".data = ["a".data, "b".data] := by decide
example : pySplitlines "".data = [] := by decide
example : split2 "a    b".data = ["a".data, [], "b".data] := by decide
example : clean_text "  Hello   World  \n\n  x " = "Hello\nWorld\nx" := by decide

/-! ## The parsed document

`BeautifulSoup(page_source, "html.parser")` yields a tree of elements and
text; `soup(["script", "style"])` with `.extract()` removes every element
whose tag is `script` or `style`, and `soup.get_text()` concatenates the
remaining text nodes in document order. -/

/-- A node of the parsed HTML document: a text node, or an element with a tag
name and child nodes. -/
inductive HNode where
  | textNode : String → HNode
  | elemNode : String → List HNode → HNode

/-- `for script in soup(["script", "style"]): script.extract()` — remove, at
every depth, each element whose tag is in `tags`. -/
def forestStripTags (tags : List String) : List HNode → List HNode
  | [] => []
  | .textNode s :: rest => .textNode s :: forestStripTags tags rest
  | .elemNode t children :: rest =>
    if t ∈ tags then forestStripTags tags rest
    else .elemNode t (forestStripTags tags children) :: forestStripTags tags rest

/-- `soup.get_text()`: concatenation of all text nodes in document order. -/
def forestGetText : List HNode → String
  | [] => ""
  | .textNode s :: rest => s ++ forestGetText rest
  | .elemNode _ children :: rest => forestGetText children ++ forestGetText rest

/-- The post-fetch processing of `scrape_text_with_selenium` (lines 174-181):
remove script/style elements, take the visible text, and normalize it. -/
def scrape_text_process (doc : List HNode) : String :=
  let soup := forestStripTags ["script", "style"] doc
  let text := forestGetText soup
  clean_text text

/-- The text-extractor algorithm exactly as the specification words it:
"remove all script/style elements from the parsed document tree; extract
remaining visible text; split on line breaks, strip each line, further split
on double-space sequences, strip each resulting fragment, discard empty
fragments, and join survivors with single newlines". -/
def text_extractor_spec (doc : List HNode) : String :=
  let visible := forestGetText (forestStripTags ["script", "style"] doc)
  let lines := (pySplitlines visible.data).map pyStrip
  let fragments := lines.flatMap (fun line => (split2 line).map pyStrip)
  let survivors := fragments.filter (fun c => !c.isEmpty)
  ⟨joinNl survivors⟩

example :
    scrape_text_process
      [.elemNode "body"
        [.elemNode "script" [.textNode "var x = 1;"],
         .textNode "  Hello   World  ",
         .elemNode "style" [.textNode "p \x7b color: red \x7d"]]] = "Hello\nWorld" := by
  simp [scrape_text_process, forestStripTags, forestGetText]
  decide

/-! ## Lemmas about the string pipeline -/

theorem splitNl_ne_nil (l : List Char) : splitNl l ≠ [] := by
  induction l with
  | nil => simp [splitNl]
  | cons c rest ih =>
    simp only [splitNl]
    split
    · simp
    · cases h : splitNl rest with
      | nil => exact absurd h ih
      | cons a t => simp [consHead]

theorem mem_splitNl (l : List Char) : ∀ p ∈ splitNl l, '\n' ∉ p := by
  induction l with
  | nil =>
    intro p hp
    simp [splitNl] at hp
    subst hp; simp
  | cons c rest ih =>
    intro p hp
    simp only [splitNl] at hp
    by_cases hc : c = '\n'
    · rw [if_pos hc] at hp
      rcases List.mem_cons.mp hp with h | h
      · subst h; simp
      · exact ih p h
    · rw [if_neg hc] at hp
      cases hsp : splitNl rest with
      | nil => exact absurd hsp (splitNl_ne_nil rest)
      | cons a t =>
        rw [hsp] at hp
        simp only [consHead] at hp
        rcases List.mem_cons.mp hp with h | h
        · subst h
          intro hmem
          rcases List.mem_cons.mp hmem with h' | h'
          · exact hc h'.symm
          · exact ih a (by rw [hsp]; exact List.mem_cons_self a t) h'
        · exact ih p (by rw [hsp]; exact List.mem_cons_of_mem a h)

theorem splitNl_eq_single (l : List Char) (h : '\n' ∉ l) : splitNl l = [l] := by
  induction l with
  | nil => rfl
  | cons c rest ih =>
    have hc : ¬ c = '\n' := fun hceq => h (by simp [hceq])
    have ih' := ih (fun hm => h (List.mem_cons_of_mem c hm))
    simp [splitNl, if_neg hc, ih', consHead]

theorem splitNl_append (a b : List Char) (h : '\n' ∉ a) :
    splitNl (a ++ '\n' :: b) = a :: splitNl b := by
  induction a with
  | nil => simp [splitNl]
  | cons c a' ih =>
    have hc : ¬ c = '\n' := fun hceq => h (by simp [hceq])
    have ih' := ih (fun hm => h (List.mem_cons_of_mem c hm))
    simp [splitNl, if_neg hc, ih', consHead]

theorem splitNl_joinNl (parts : List (List Char)) (hne : parts ≠ [])
    (h : ∀ p ∈ parts, '\n' ∉ p) :
    splitNl (joinNl parts) = parts := by
  induction parts with
  | nil => exact absurd rfl hne
  | cons p rest ih =>
    cases rest with
    | nil =>
      simp only [joinNl]
      exact splitNl_eq_single p (h p (List.mem_cons_self p []))
    | cons q rest' =>
      have h1 : '\n' ∉ p := h p (List.mem_cons_self _ _)
      have hr : ∀ x ∈ q :: rest', '\n' ∉ x := fun x hx => h x (List.mem_cons_of_mem p hx)
      simp only [joinNl]
      rw [splitNl_append p _ h1, ih (by simp) hr]

theorem split2_ne_nil (l : List Char) : split2 l ≠ [] := by
  induction l using split2.induct with
  | case1 => simp [split2]
  | case2 c => simp [split2]
  | case3 c1 c2 rest h ih => simp [split2, if_pos h]
  | case4 c1 c2 rest h ih =>
    simp only [split2, if_neg h]
    cases hs : split2 (c2 :: rest) with
    | nil => exact absurd hs ih
    | cons a t => simp [consHead]

theorem split2_headD_pre (l : List Char) : ∃ t, (split2 l).headD [] ++ t = l := by
  induction l using split2.induct with
  | case1 => exact ⟨[], rfl⟩
  | case2 c => exact ⟨[], rfl⟩
  | case3 c1 c2 rest h ih =>
    refine ⟨c1 :: c2 :: rest, ?_⟩
    simp [split2, if_pos h]
  | case4 c1 c2 rest h ih =>
    obtain ⟨t, ht⟩ := ih
    cases hs : split2 (c2 :: rest) with
    | nil => exact absurd hs (split2_ne_nil _)
    | cons a t' =>
      rw [hs] at ht
      refine ⟨t, ?_⟩
      simp only [split2, if_neg h, hs, consHead, List.headD_cons]
      simp only [List.headD_cons] at ht
      simp [ht]

theorem mem_split2_noDSp (l : List Char) : ∀ p ∈ split2 l, hasDSp p = false := by
  induction l using split2.induct with
  | case1 =>
    intro p hp
    simp [split2] at hp
    subst hp; rfl
  | case2 c =>
    intro p hp
    simp [split2] at hp
    subst hp; rfl
  | case3 c1 c2 rest h ih =>
    intro p hp
    simp only [split2, if_pos h] at hp
    rcases List.mem_cons.mp hp with h' | h'
    · subst h'; rfl
    · exact ih p h'
  | case4 c1 c2 rest h ih =>
    intro p hp
    simp only [split2, if_neg h] at hp
    cases hs : split2 (c2 :: rest) with
    | nil => exact absurd hs (split2_ne_nil _)
    | cons a t =>
      rw [hs] at hp
      simp only [consHead] at hp
      rcases List.mem_cons.mp hp with h' | h'
      · subst h'
        have ha : hasDSp a = false := ih a (by rw [hs]; exact List.mem_cons_self a t)
        cases a with
        | nil => rfl
        | cons x a' =>
          have hx : x = c2 := by
            obtain ⟨t', ht'⟩ := split2_headD_pre (c2 :: rest)
            rw [hs] at ht'
            simp only [List.headD_cons, List.cons_append] at ht'
            exact (List.cons_eq_cons.mp ht').1
          have hc12 : (decide (c1 = ' ') && decide (x = ' ')) = false := by
            rw [hx]
            by_cases h1 : c1 = ' ' <;> by_cases h2 : c2 = ' ' <;>
              simp_all
          simp [hasDSp, hc12, ha]
      · exact ih p (by rw [hs]; exact List.mem_cons_of_mem a h')

theorem mem_split2_subset (l : List Char) : ∀ p ∈ split2 l, ∀ c ∈ p, c ∈ l := by
  induction l using split2.induct with
  | case1 =>
    intro p hp
    simp [split2] at hp
    subst hp; simp
  | case2 c =>
    intro p hp
    simp [split2] at hp
    subst hp; simp
  | case3 c1 c2 rest h ih =>
    intro p hp c hc
    simp only [split2, if_pos h] at hp
    rcases List.mem_cons.mp hp with h' | h'
    · subst h'; simp at hc
    · exact List.mem_cons_of_mem _ (List.mem_cons_of_mem _ (ih p h' c hc))
  | case4 c1 c2 rest h ih =>
    intro p hp c hc
    simp only [split2, if_neg h] at hp
    cases hs : split2 (c2 :: rest) with
    | nil => exact absurd hs (split2_ne_nil _)
    | cons a t =>
      rw [hs] at hp
      simp only [consHead] at hp
      rcases List.mem_cons.mp hp with h' | h'
      · subst h'
        rcases List.mem_cons.mp hc with h'' | h''
        · subst h''; simp
        · exact List.mem_cons_of_mem _
            (ih a (by rw [hs]; exact List.mem_cons_self a t) c h'')
      · exact List.mem_cons_of_mem _
          (ih p (by rw [hs]; exact List.mem_cons_of_mem a h') c hc)

theorem split2_eq_single (l : List Char) (h : hasDSp l = false) : split2 l = [l] := by
  induction l using split2.induct with
  | case1 => rfl
  | case2 c => rfl
  | case3 c1 c2 rest hsp ih =>
    exfalso
    have : hasDSp (c1 :: c2 :: rest) = true := by
      simp [hasDSp, hsp.1, hsp.2]
    rw [this] at h; simp at h
  | case4 c1 c2 rest hsp ih =>
    have hr : hasDSp (c2 :: rest) = false := by
      simp only [hasDSp] at h
      exact (Bool.or_eq_false_iff.mp h).2
    simp [split2, if_neg hsp, ih hr, consHead]

theorem hasDSp_cons_of (c : Char) (l : List Char) (h : hasDSp l = true) :
    hasDSp (c :: l) = true := by
  cases l with
  | nil => simp [hasDSp] at h
  | cons d r => simp [hasDSp, h]

theorem hasDSp_append_right (a b : List Char) (h : hasDSp b = true) :
    hasDSp (a ++ b) = true := by
  induction a with
  | nil => simpa
  | cons c a' ih => exact hasDSp_cons_of c _ ih

theorem hasDSp_append_left (a : List Char) (h : hasDSp a = true) (b : List Char) :
    hasDSp (a ++ b) = true := by
  induction a using hasDSp.induct with
  | case1 c1 c2 rest ih =>
    simp only [hasDSp, Bool.or_eq_true] at h
    rcases h with h1 | h2
    · simp [hasDSp, h1]
    · have := ih h2
      simp only [List.cons_append] at this ⊢
      exact hasDSp_cons_of c1 _ this
  | case2 x hx => simp [hasDSp] at h

theorem hasDSp_false_of_infix (p l : List Char) (hinf : ∃ s t, s ++ p ++ t = l)
    (hl : hasDSp l = false) : hasDSp p = false := by
  by_contra hp
  have hp' : hasDSp p = true := by
    cases hcase : hasDSp p with
    | false => exact absurd hcase hp
    | true => rfl
  obtain ⟨s, t, rfl⟩ := hinf
  have h1 : hasDSp (p ++ t) = true := hasDSp_append_left p hp' t
  have h2 : hasDSp (s ++ (p ++ t)) = true := hasDSp_append_right s _ h1
  rw [← List.append_assoc] at h2
  rw [h2] at hl
  simp at hl

theorem dropWhile_head_false (p : Char → Bool) (l : List Char) :
    ∀ x, (l.dropWhile p).head? = some x → p x = false := by
  induction l with
  | nil => intro x h; simp [List.dropWhile] at h
  | cons c r ih =>
    intro x h
    rw [List.dropWhile_cons] at h
    split at h
    · exact ih x h
    · next hpc =>
      simp only [List.head?_cons, Option.some.injEq] at h
      subst h
      exact Bool.not_eq_true _ ▸ (by simpa using hpc)

theorem dropWhile_of_head_false (p : Char → Bool) (l : List Char)
    (h : ∀ x, l.head? = some x → p x = false) :
    l.dropWhile p = l := by
  cases l with
  | nil => rfl
  | cons c r =>
    have := h c rfl
    simp [List.dropWhile_cons, this]

theorem dropWhile_suffix_ex (p : Char → Bool) (l : List Char) :
    ∃ s, s ++ l.dropWhile p = l := by
  induction l with
  | nil => exact ⟨[], rfl⟩
  | cons c r ih =>
    rw [List.dropWhile_cons]
    split
    · obtain ⟨s, hs⟩ := ih
      exact ⟨c :: s, by simp [hs]⟩
    · exact ⟨[], rfl⟩

/-- `pyStrip l` is a contiguous piece of `l`. -/
theorem pyStrip_infix_ex (l : List Char) : ∃ s t, s ++ pyStrip l ++ t = l := by
  obtain ⟨s, hs⟩ := dropWhile_suffix_ex isPySpace l
  obtain ⟨u, hu⟩ := dropWhile_suffix_ex isPySpace (l.dropWhile isPySpace).reverse
  refine ⟨s, u.reverse, ?_⟩
  have hrev : (l.dropWhile isPySpace) = pyStrip l ++ u.reverse := by
    have := congrArg List.reverse hu
    simpa [pyStrip, List.reverse_append] using this.symm
  rw [List.append_assoc, ← hrev]
  exact hs

/-- A nonempty `pyStrip l` starts with a non-whitespace character. -/
theorem pyStrip_head_false (l : List Char) :
    ∀ x, (pyStrip l).head? = some x → isPySpace x = false := by
  intro x hx
  obtain ⟨u, hu⟩ := dropWhile_suffix_ex isPySpace (l.dropWhile isPySpace).reverse
  have hrev : (l.dropWhile isPySpace) = pyStrip l ++ u.reverse := by
    have := congrArg List.reverse hu
    simpa [pyStrip, List.reverse_append] using this.symm
  cases hp : pyStrip l with
  | nil => rw [hp] at hx; simp at hx
  | cons y m =>
    rw [hp] at hx
    simp only [List.head?_cons, Option.some.injEq] at hx
    rw [← hx]
    apply dropWhile_head_false isPySpace l y
    rw [hrev, hp]
    simp

/-- Python `strip` is idempotent. -/
theorem pyStrip_idem (l : List Char) : pyStrip (pyStrip l) = pyStrip l := by
  have h1 : (pyStrip l).dropWhile isPySpace = pyStrip l :=
    dropWhile_of_head_false _ _ (pyStrip_head_false l)
  have h2 : (pyStrip l).reverse.dropWhile isPySpace = (pyStrip l).reverse := by
    apply dropWhile_of_head_false
    intro x hx
    have : (pyStrip l).reverse = (l.dropWhile isPySpace).reverse.dropWhile isPySpace := by
      simp [pyStrip]
    rw [this] at hx
    exact dropWhile_head_false isPySpace _ x hx
  show (((pyStrip l).dropWhile isPySpace).reverse.dropWhile isPySpace).reverse = pyStrip l
  rw [h1, h2, List.reverse_reverse]

theorem mem_of_infix_ex {p l : List Char} (h : ∃ s t, s ++ p ++ t = l) :
    ∀ x ∈ p, x ∈ l := by
  obtain ⟨s, t, rfl⟩ := h
  intro x hx
  simp only [List.append_assoc, List.mem_append]
  exact Or.inr (Or.inl hx)

theorem mem_pySplitlines (l : List Char) : ∀ p ∈ pySplitlines l, p ∈ splitNl l := by
  intro p hp
  simp only [pySplitlines] at hp
  split at hp
  · exact List.dropLast_subset _ hp
  · exact hp

/-- Every chunk produced by the pipeline is non-empty, already stripped, free
of double spaces, and free of newlines. -/
theorem mem_pyChunks (l : List Char) :
    ∀ c ∈ pyChunks l, c ≠ [] ∧ pyStrip c = c ∧ hasDSp c = false ∧ '\n' ∉ c := by
  intro c hc
  simp only [pyChunks, List.mem_filter] at hc
  obtain ⟨hmem, hne⟩ := hc
  simp only [List.mem_flatMap, List.mem_map] at hmem
  obtain ⟨line, ⟨line0, hline0, rfl⟩, ph, hph, rfl⟩ := hmem
  refine ⟨by simpa using hne, pyStrip_idem ph, ?_, ?_⟩
  · exact hasDSp_false_of_infix _ ph (pyStrip_infix_ex ph) (mem_split2_noDSp _ ph hph)
  · intro hmem'
    have h1 : '\n' ∈ ph := mem_of_infix_ex (pyStrip_infix_ex ph) _ hmem'
    have h2 : '\n' ∈ pyStrip line0 := mem_split2_subset _ ph hph _ h1
    have h3 : '\n' ∈ line0 := mem_of_infix_ex (pyStrip_infix_ex line0) _ h2
    exact mem_splitNl l line0 (mem_pySplitlines l line0 hline0) h3

theorem map_pyStrip_self (xs : List (List Char)) (h : ∀ x ∈ xs, pyStrip x = x) :
    xs.map pyStrip = xs := by
  induction xs with
  | nil => rfl
  | cons a t ih =>
    simp [h a (by simp), ih (fun x hx => h x (List.mem_cons_of_mem a hx))]

theorem flatMap_split2_self (xs : List (List Char))
    (h : ∀ x ∈ xs, pyStrip x = x ∧ hasDSp x = false) :
    xs.flatMap (fun line => (split2 line).map pyStrip) = xs := by
  induction xs with
  | nil => rfl
  | cons a t ih =>
    have ha := h a (by simp)
    simp [List.flatMap_cons, split2_eq_single a ha.2, ha.1,
      ih (fun x hx => h x (List.mem_cons_of_mem a hx))]

/-- Rebuilding the chunk list from a joined list of good chunks gives back
exactly those chunks. -/
theorem pyChunks_joinNl (parts : List (List Char))
    (h : ∀ c ∈ parts, c ≠ [] ∧ pyStrip c = c ∧ hasDSp c = false ∧ '\n' ∉ c) :
    pyChunks (joinNl parts) = parts := by
  cases parts with
  | nil => rfl
  | cons p rest =>
    have hsplit : splitNl (joinNl (p :: rest)) = p :: rest :=
      splitNl_joinNl _ (by simp) (fun x hx => (h x hx).2.2.2)
    have hlast : ¬ (p :: rest).getLast? = some [] := by
      intro heq
      have hx : ([] : List Char) ∈ (p :: rest).getLast? := by rw [heq]; rfl
      obtain ⟨hne', hEq⟩ := List.mem_getLast?_eq_getLast hx
      have hmem : ([] : List Char) ∈ p :: rest := by
        rw [hEq]; exact List.getLast_mem hne'
      exact (h [] hmem).1 rfl
    simp only [pyChunks, pySplitlines, hsplit]
    rw [if_neg hlast]
    rw [map_pyStrip_self _ (fun x hx => (h x hx).2.1)]
    rw [flatMap_split2_self _ (fun x hx => ⟨(h x hx).2.1, (h x hx).2.2.1⟩)]
    apply List.filter_eq_self.mpr
    intro a ha
    simpa using (h a ha).1

/-- The whitespace-normalization pipeline is idempotent. -/
theorem pyNormalize_idem (l : List Char) :
    pyNormalizeChars (pyNormalizeChars l) = pyNormalizeChars l := by
  unfold pyNormalizeChars
  rw [pyChunks_joinNl _ (mem_pyChunks l)]

/-- The normalized text is empty, or splits into lines none of which is empty. -/
theorem pyNormalize_no_empty_lines (l : List Char) :
    pyNormalizeChars l = [] ∨ [] ∉ splitNl (pyNormalizeChars l) := by
  cases hch : pyChunks l with
  | nil => left; simp [pyNormalizeChars, hch, joinNl]
  | cons p rest =>
    right
    have hgood := mem_pyChunks l
    rw [hch] at hgood
    have hsplit : splitNl (pyNormalizeChars l) = p :: rest := by
      simp only [pyNormalizeChars, hch]
      exact splitNl_joinNl _ (by simp) (fun x hx => (hgood x hx).2.2.2)
    rw [hsplit]
    intro hmem
    exact (hgood [] hmem).1 rfl

/-! ## Hyperlink extraction

`extract_hyperlinks` and `format_hyperlinks` are imported from
`autogpt.processing.html`, which is not part of this module's source file;
they are modelled from the specification (sections 4.2 and 6). -/

/-- Split an URL at the first `"://"`: `some (scheme, remainder)` when the
separator occurs, `none` otherwise. -/
def schemeSplit : List Char → Option (List Char × List Char)
  | [] => none
  | c :: rest =>
    if c = ':' ∧ rest.take 2 = ['/', '/'] then some ([], rest.drop 2)
    else (schemeSplit rest).map (fun p => (c :: p.1, p.2))

/-- An URL is absolute when it carries a `"://"` scheme separator. -/
def hasSchemeSep (l : List Char) : Bool :=
  (schemeSplit l).isSome

/-- Modelled from the spec: the hyperlink-resolution facility (`urljoin`)
consumed by `extract_hyperlinks` in `autogpt.processing.html` — "resolve each
href against the base URL to an absolute URL". An already-absolute href is
kept; an href starting with `/` is attached to the base's origin; any other
href replaces the last segment of the base's path. -/
def urljoin (base href : List Char) : List Char :=
  if (schemeSplit href).isSome then href
  else
    match schemeSplit base with
    | none => href
    | some (sch, rest) =>
      let host := rest.takeWhile (fun c => !(c = '/'))
      let path := rest.dropWhile (fun c => !(c = '/'))
      if href.head? = some '/' then sch ++ ':' :: '/' :: '/' :: (host ++ href)
      else
        let dir := (path.reverse.dropWhile (fun c => !(c = '/'))).reverse
        if dir.isEmpty then sch ++ ':' :: '/' :: '/' :: (host ++ '/' :: href)
        else sch ++ ':' :: '/' :: '/' :: (host ++ dir ++ href)

example : urljoin "https://example.com/page".data "/about".data
    = "https://example.com/about".data := by decide
example : urljoin "https://example.com/a/b".data "c".data
    = "https://example.com/a/c".data := by decide
example : urljoin "https://example.com/page".data "https://other.org/x".data
    = "https://other.org/x".data := by decide

/-- An anchor element: its visible text and its optional `href` attribute. -/
structure Anchor where
  text : String
  href : Option String

/-- Modelled from the spec: `extract_hyperlinks` of `autogpt.processing.html`
(not in this module's source) — "locate anchor elements with an href
attribute; resolve each href against the base URL to an absolute URL; pair
with the anchor's visible text (or the URL itself if no text)". -/
def extract_hyperlinks (anchors : List Anchor) (base : String) :
    List (String × String) :=
  anchors.filterMap (fun a =>
    a.href.map (fun h =>
      let url : String := ⟨urljoin base.data h.data⟩
      (if a.text = "" then url else a.text, url)))

/-- Modelled from the spec: `format_hyperlinks` of `autogpt.processing.html`
— "format each pair as a human-readable "text (url)" string". -/
def format_hyperlinks (hyperlinks : List (String × String)) : List String :=
  hyperlinks.map (fun p => p.1 ++ " (" ++ p.2 ++ ")")

/-- `scrape_links_with_selenium` minus the browser fetch (lines 193-201):
extract the hyperlinks of the parsed page and format them. -/
def scrape_links_process (anchors : List Anchor) (url : String) : List String :=
  format_hyperlinks (extract_hyperlinks anchors url)

/-- The `# Limit links to 5` truncation of `browse_website` (lines 43-45). -/
def limit_links (links : List String) : List String :=
  if links.length > 5 then links.take 5 else links

theorem hasSchemeSep_append_sep (sch tail : List Char) :
    hasSchemeSep (sch ++ ':' :: '/' :: '/' :: tail) = true := by
  induction sch with
  | nil =>
    show (schemeSplit (':' :: '/' :: '/' :: tail)).isSome = true
    rw [schemeSplit, if_pos ⟨rfl, rfl⟩]
    rfl
  | cons c s' ih =>
    show (schemeSplit (c :: (s' ++ ':' :: '/' :: '/' :: tail))).isSome = true
    rw [schemeSplit]
    split
    · rfl
    · cases hs : schemeSplit (s' ++ ':' :: '/' :: '/' :: tail) with
      | none =>
        unfold hasSchemeSep at ih
        rw [hs] at ih
        simp at ih
      | some p => simp [hs]

/-- Resolution against an absolute base always yields an absolute URL. -/
theorem urljoin_absolute (base href : List Char) (hbase : hasSchemeSep base = true) :
    hasSchemeSep (urljoin base href) = true := by
  unfold urljoin
  split
  · next h => exact h
  · cases hb : schemeSplit base with
    | none =>
      exfalso
      unfold hasSchemeSep at hbase
      rw [hb] at hbase
      simp at hbase
    | some p =>
      obtain ⟨sch, rest⟩ := p
      simp only
      split
      · exact hasSchemeSep_append_sep sch _
      · split
        · exact hasSchemeSep_append_sep sch _
        · exact hasSchemeSep_append_sep sch _

/-! ## `browse_website` and the driver lifecycle -/

/-- An abstract browser-session handle (the Selenium `WebDriver`). -/
structure WebDriverH where
  id : Nat
deriving DecidableEq

/-- The browser-dependent collaborators of `browse_website`, abstracted as
pure functions: `create_driver`, `scrape_text_with_selenium` (which returns
the driver together with the text), `summary.summarize_text`, and
`scrape_links_with_selenium`. -/
structure BrowseEnv where
  create_driver : WebDriverH
  scrape_text : String → WebDriverH → WebDriverH × String
  summarize_text : String → String → String → WebDriverH → String
  scrape_links : WebDriverH → String → List String

/-- The Python `repr` of a list of strings, as an f-string interpolates it:
`['a (url)', 'b (url)']`. -/
def pyReprStrList (xs : List String) : String :=
  "[" ++ String.intercalate ", " (xs.map (fun s => "\x27" ++ s ++ "\x27")) ++ "]"

/-- `browse_website` (lines 27-47): fetch, scrape, summarize, scrape links,
truncate the links to five, close the browser, and return the formatted
answer together with the driver handle. -/
def browse_website (env : BrowseEnv) (url question : String) :
    String × WebDriverH :=
  let driver := env.create_driver
  let dt := env.scrape_text url driver
  let driver := dt.1
  let text := dt.2
  let summary_text := env.summarize_text url text question driver
  let links := limit_links (env.scrape_links driver url)
  ("Answer gathered from website: " ++ summary_text ++ " \n \n Links: " ++
      pyReprStrList links,
    driver)

/-- The output format as the specification words it: "Answer gathered from
website: \x7bsummary\x7d \n \n Links: \x7blinks\x7d". -/
def answer_template (summary links : String) : String :=
  "Answer gathered from website: " ++ summary ++ " \n \n Links: " ++ links

/-- Observable browser-session events, in the order the routines issue them. -/
inductive BrowserEv where
  | create
  | navigate (url : String)
  | wait_body
  | exec_script
  | get_page_source
  | quit
deriving DecidableEq

/-- `create_driver` spawns one browser process. -/
def create_driver_trace : List BrowserEv := [BrowserEv.create]

/-- `scrape_text_with_selenium`: `driver.get(url)`, the bounded wait for the
body element, and the `execute_script` that reads the DOM (lines 164-171). -/
def scrape_text_trace (url : String) : List BrowserEv :=
  [BrowserEv.navigate url, BrowserEv.wait_body, BrowserEv.exec_script]

/-- `add_header` injects the overlay script (line 225). -/
def add_header_trace : List BrowserEv := [BrowserEv.exec_script]

/-- `scrape_links_with_selenium` reads `driver.page_source` (line 193). -/
def scrape_links_trace : List BrowserEv := [BrowserEv.get_page_source]

/-- `close_browser` calls `driver.quit()` (line 213). -/
def close_browser_trace : List BrowserEv := [BrowserEv.quit]

/-- The browser-session events of `browse_website` (lines 37-47) in order. -/
def browse_website_trace (url : String) : List BrowserEv :=
  create_driver_trace ++ scrape_text_trace url ++ add_header_trace ++
    scrape_links_trace ++ close_browser_trace

/-- The browser-session events of `open_website_in_browser` (lines 49-57):
create a driver, navigate, wait for the body — and return with the session
still open (no `quit`). -/
def open_website_in_browser_trace (url : String) : List BrowserEv :=
  create_driver_trace ++ [BrowserEv.navigate url, BrowserEv.wait_body]

/-! ## `create_driver` configuration lookup -/

/-- The three supported browser families. -/
inductive BrowserKind where
  | chrome
  | safari
  | firefox
deriving DecidableEq

/-- The `options_available` dictionary of `create_driver` (lines 118-122). -/
def options_available : List (String × BrowserKind) :=
  [("chrome", BrowserKind.chrome), ("safari", BrowserKind.safari),
    ("firefox", BrowserKind.firefox)]

/-- Python `d[key]` on a dict: a missing key raises `KeyError`. -/
def dict_getitem (d : List (String × BrowserKind)) (k : String) :
    Except String BrowserKind :=
  match d.find? (fun p => p.1 == k) with
  | some p => Except.ok p.2
  | none => Except.error ("KeyError: " ++ k)

/-- `create_driver` (lines 117-152): the configured browser family is looked
up in `options_available` before anything else; only after a successful
lookup does a branch spawn a browser process (the `.create` event). The
`headless` flag merely adds options. -/
def create_driver (browser : String) (headless : Bool) :
    Except String BrowserKind × List BrowserEv :=
  match dict_getitem options_available browser with
  | Except.error e => (Except.error e, [])
  | Except.ok kind => (Except.ok kind, [BrowserEv.create])

/-! ## The QA helpers

Each helper is a function into `Except String QAResult`: `Except.error`
models a Python exception propagating out of the helper, and a `try/except`
block is the explicit `match` that maps any error of its body to an
`Except.ok` carrying the generic message string. -/

/-- An element handle: its `.text`, the outcome of `.click()`, and the
outcome of the `.sendkeys(...)` call. -/
structure SimElement where
  textAttr : String
  clickResult : Except String Unit
  sendkeysResult : String → Except String Unit

/-- A driver handle: the outcomes of `find_element`, `find_elements` and of
the `WebDriverWait(...).until(...)` on the body element. -/
structure SimDriver where
  find_element : String → Except String SimElement
  find_elements : String → Except String (List SimElement)
  wait_body : Except String Unit

/-- The context dictionary built by `get_updated_html_context`. -/
structure HtmlCtx where
  body_text : List String
  buttons : List String
  inputs : List String
deriving DecidableEq

/-- The value a QA helper hands back: a (message, context) pair, a
(message, body text) pair, a (message, three-string dict) pair, or a bare
error string. -/
inductive QAResult where
  | pairCtx : String → HtmlCtx → QAResult
  | pairText : String → String → QAResult
  | pairDict : String → String × String × String → QAResult
  | plainError : String → QAResult
deriving DecidableEq

def xpathInputs : String :=
  "//input[@type=\x27text\x27 or @type=\x27password\x27]"

def btn_error_msg : String :=
  "Error: That button doesn\x27t exist, please identify the correct button first"

def html_error_msg : String :=
  "Error: Can\x27t seem to get html, please stop doing QA and get some help"

/-- `get_updated_html_context` (lines 84-93). -/
def get_updated_html_context (d : SimDriver) : Except String HtmlCtx := do
  let buttons ← d.find_elements "//button"
  let inputs ← d.find_elements xpathInputs
  let body ← d.find_elements "/html/body"
  pure { body_text := body.map (fun b => b.textAttr),
         buttons := buttons.map (fun b => b.textAttr),
         inputs := inputs.map (fun i => i.textAttr) }

/-- The body of the `try` block of `navigate_by_click_button` (lines 72-80). -/
def navigate_body (d : SimDriver) (button_text : String) :
    Except String HtmlCtx := do
  let btn ← d.find_element button_text
  let _ ← btn.clickResult
  let _ ← d.wait_body
  get_updated_html_context d

/-- `navigate_by_click_button` (lines 71-82). -/
def navigate_by_click_button (d : SimDriver) (button_text : String) :
    Except String QAResult :=
  match navigate_body d button_text with
  | Except.ok ctx => Except.ok (QAResult.pairCtx "Current valid website context" ctx)
  | Except.error _ => Except.ok (QAResult.plainError btn_error_msg)

/-- `get_updated_html` (lines 95-99). -/
def get_updated_html (d : SimDriver) : Except String QAResult :=
  match get_updated_html_context d with
  | Except.ok ctx => Except.ok (QAResult.pairCtx "Current valid website context" ctx)
  | Except.error _ => Except.ok (QAResult.plainError html_error_msg)

/-- `find_button_name` (lines 101-105). -/
def find_button_name (d : SimDriver) : Except String QAResult :=
  match get_updated_html_context d with
  | Except.ok ctx => Except.ok (QAResult.pairCtx "Current valid website context" ctx)
  | Except.error _ => Except.ok (QAResult.plainError btn_error_msg)

/-- Accessing `.text` on a Python list object raises `AttributeError`. -/
def list_text_attr (es : List SimElement) : Except String String :=
  Except.error "AttributeError: \x27list\x27 object has no attribute \x27text\x27"

/-- The body of the `try` block of `click_button` (lines 108-113): each
`find_elements(...).text` takes the `.text` attribute of a list. -/
def click_body (d : SimDriver) : Except String (String × String × String) := do
  let bs ← d.find_elements "//button"
  let buttons ← list_text_attr bs
  let ins ← d.find_elements xpathInputs
  let inputs ← list_text_attr ins
  let bodyEls ← d.find_elements "/html/body"
  let body_text ← list_text_attr bodyEls
  pure (body_text, buttons, inputs)

/-- `click_button` (lines 107-115). -/
def click_button (d : SimDriver) : Except String QAResult :=
  match click_body d with
  | Except.ok r => Except.ok (QAResult.pairDict "Current valid website context" r)
  | Except.error _ => Except.ok (QAResult.plainError btn_error_msg)

/-- `identify_form_field` (lines 59-62): no `try/except`. -/
def identify_form_field (d : SimDriver) : Except String QAResult := do
  let body ← d.find_element "/html/body"
  pure (QAResult.pairText "Current valid html" body.textAttr)

/-- `enter_text_into_form_field` (lines 64-69): no `try/except`, so any
lookup failure propagates. -/
def enter_text_into_form_field (d : SimDriver) (field_name text : String) :
    Except String QAResult := do
  let body ← d.find_element "/html/body"
  let field ← d.find_element field_name
  let _ ← field.sendkeysResult text
  pure (QAResult.pairText "Current valid html" body.textAttr)

/-- A driver on which every element lookup fails. -/
def failing_lookup_error : String :=
  "NoSuchElementException: Unable to locate element"

def badDriver : SimDriver where
  find_element := fun _ => Except.error failing_lookup_error
  find_elements := fun _ => Except.error failing_lookup_error
  wait_body := Except.ok ()

/-! ## The claims -/

/-- C1: for every parsed document, the text extractor's post-fetch processing
produces exactly the result of removing script/style elements, taking the
remaining visible text, splitting it on line breaks, stripping each line,
splitting on double-space sequences, stripping each fragment, discarding
empty fragments and joining the survivors with single newlines; in
particular the result contains no empty line. -/
theorem claim_C1_scrape_text_matches_spec (doc : List HNode) :
    scrape_text_process doc = text_extractor_spec doc ∧
    (scrape_text_process doc = "" ∨
      [] ∉ splitNl (scrape_text_process doc).data) := by
  constructor
  · rfl
  · rcases pyNormalize_no_empty_lines
        (forestGetText (forestStripTags ["script", "style"] doc)).data with h | h
    · left
      show (⟨pyNormalizeChars
          (forestGetText (forestStripTags ["script", "style"] doc)).data⟩ : String) = ""
      rw [h]
    · right
      exact h

/-- C2: the link list handed on by `browse_website` never exceeds 5 entries,
and when the extracted list is longer it is exactly its first 5 entries in
document order. -/
theorem claim_C2_link_list_at_most_five (anchors : List Anchor) (url : String) :
    (limit_links (scrape_links_process anchors url)).length ≤ 5 ∧
    ((scrape_links_process anchors url).length > 5 →
      limit_links (scrape_links_process anchors url) =
        (scrape_links_process anchors url).take 5) := by
  constructor
  · unfold limit_links
    split
    · rw [List.length_take]
      omega
    · omega
  · intro h
    unfold limit_links
    rw [if_pos h]

def twelve_anchors : List Anchor :=
  [⟨"a1", some "/1"⟩, ⟨"a2", some "/2"⟩, ⟨"a3", some "/3"⟩, ⟨"a4", some "/4"⟩,
   ⟨"a5", some "/5"⟩, ⟨"a6", some "/6"⟩, ⟨"a7", some "/7"⟩, ⟨"a8", some "/8"⟩,
   ⟨"a9", some "/9"⟩, ⟨"a10", some "/10"⟩, ⟨"a11", some "/11"⟩,
   ⟨"a12", some "/12"⟩]

/-- C2 witness: 12 anchors yield more than 5 extracted links, and the
truncated list is exactly the first 5, hence has 5 entries. -/
theorem claim_C2_witness :
    (scrape_links_process twelve_anchors "https://example.com/page").length > 5 ∧
    limit_links (scrape_links_process twelve_anchors "https://example.com/page") =
      (scrape_links_process twelve_anchors "https://example.com/page").take 5 ∧
    (limit_links
      (scrape_links_process twelve_anchors "https://example.com/page")).length = 5 :=
  ⟨by decide,
   (claim_C2_link_list_at_most_five twelve_anchors "https://example.com/page").2
     (by decide),
   by decide⟩

/-- C3: every hyperlink URL produced by link extraction against an absolute
base URL is itself absolute, and the relative href `/about` on base
`https://example.com/page` resolves to `https://example.com/about`. -/
theorem claim_C3_hyperlinks_absolute (anchors : List Anchor) (base : String)
    (hbase : hasSchemeSep base.data = true) :
    (∀ p ∈ extract_hyperlinks anchors base, hasSchemeSep p.2.data = true) ∧
    urljoin "https://example.com/page".data "/about".data =
      "https://example.com/about".data := by
  constructor
  · intro p hp
    simp only [extract_hyperlinks, List.mem_filterMap] at hp
    obtain ⟨a, ha, hmap⟩ := hp
    cases hhref : a.href with
    | none => rw [hhref] at hmap; simp at hmap
    | some h =>
      rw [hhref] at hmap
      simp only [Option.map_some', Option.some.injEq] at hmap
      rw [← hmap]
      exact urljoin_absolute base.data h.data hbase
  · decide

/-- C3 witness: the base URL `https://example.com/page` is absolute, and the
single anchor with href `/about` yields an absolute hyperlink. -/
theorem claim_C3_witness :
    hasSchemeSep ("https://example.com/page" : String).data = true ∧
    (∀ p ∈ extract_hyperlinks [⟨"About", some "/about"⟩] "https://example.com/page",
      hasSchemeSep p.2.data = true) :=
  ⟨by decide,
   (claim_C3_hyperlinks_absolute [⟨"About", some "/about"⟩]
      "https://example.com/page" (by decide)).1⟩

/-- C4: whenever the visible text left after script/style removal is empty,
the text extractor returns the empty text (and, being a total function,
raises no error). -/
theorem claim_C4_empty_visible_text (doc : List HNode)
    (h : forestGetText (forestStripTags ["script", "style"] doc) = "") :
    scrape_text_process doc = "" := by
  show clean_text (forestGetText (forestStripTags ["script", "style"] doc)) = ""
  rw [h]
  rfl

def script_style_only_doc : List HNode :=
  [HNode.elemNode "script" [HNode.textNode "var x = 1;"],
   HNode.elemNode "style" [HNode.textNode "body \x7b margin: 0 \x7d"]]

/-- C4 witness: a document containing only script/style content has empty
visible text and extracts to the empty string. -/
theorem claim_C4_witness :
    forestGetText (forestStripTags ["script", "style"] script_style_only_doc) = "" ∧
    scrape_text_process script_style_only_doc = "" := by
  have h : forestGetText
      (forestStripTags ["script", "style"] script_style_only_doc) = "" := by
    simp [script_style_only_doc, forestStripTags, forestGetText]
  exact ⟨h, claim_C4_empty_visible_text script_style_only_doc h⟩

/-- C5: `browse_website` returns the pair of the exactly formatted answer
string "Answer gathered from website: \x7bsummary\x7d \n \n Links:
\x7blinks\x7d" (links truncated to 5 then interpolated) and the
browser-session handle obtained from the scrape step. -/
theorem claim_C5_browse_website_output (env : BrowseEnv) (url question : String) :
    (browse_website env url question).1 =
      answer_template
        (env.summarize_text url (env.scrape_text url env.create_driver).2 question
          (env.scrape_text url env.create_driver).1)
        (pyReprStrList (limit_links
          (env.scrape_links (env.scrape_text url env.create_driver).1 url))) ∧
    (browse_website env url question).2 = (env.scrape_text url env.create_driver).1 :=
  ⟨rfl, rfl⟩

/-- C6 counterexample: `enter_text_into_form_field` (lines 64-69) has no
`try/except`, so a lookup failure propagates to the caller as an exception
instead of being converted to an error string — refuting the claim for that
helper. -/
theorem claim_C6_counterexample :
    enter_text_into_form_field badDriver "username" "hello" =
      Except.error failing_lookup_error := rfl

/-- C6 (amended): failures in `navigate_by_click_button`, `get_updated_html`,
`find_button_name` and `click_button` are caught broadly and converted to the
generic user-facing error strings, but `enter_text_into_form_field` has no
handler and propagates the lookup failure. -/
theorem claim_C6_qa_error_handling (d : SimDriver) (e : String)
    (h1 : ∀ q, d.find_element q = Except.error e)
    (h2 : ∀ q, d.find_elements q = Except.error e)
    (button_text field_name text : String) :
    navigate_by_click_button d button_text =
      Except.ok (QAResult.plainError btn_error_msg) ∧
    get_updated_html d = Except.ok (QAResult.plainError html_error_msg) ∧
    find_button_name d = Except.ok (QAResult.plainError btn_error_msg) ∧
    click_button d = Except.ok (QAResult.plainError btn_error_msg) ∧
    enter_text_into_form_field d field_name text = Except.error e := by
  have hctx : get_updated_html_context d = Except.error e := by
    simp [get_updated_html_context, h2, Bind.bind, Except.bind]
  have hnav : navigate_body d button_text = Except.error e := by
    simp [navigate_body, h1, Bind.bind, Except.bind]
  have hclick : click_body d = Except.error e := by
    simp [click_body, h2, Bind.bind, Except.bind]
  refine ⟨?_, ?_, ?_, ?_, ?_⟩
  · simp [navigate_by_click_button, hnav]
  · simp [get_updated_html, hctx]
  · simp [find_button_name, hctx]
  · simp [click_button, hclick]
  · simp [enter_text_into_form_field, h1, Bind.bind, Except.bind]

/-- C6 witness: on a driver whose lookups all fail, the four wrapped helpers
return the generic error strings while `enter_text_into_form_field`
propagates the exception. -/
theorem claim_C6_witness :
    navigate_by_click_button badDriver "submit" =
      Except.ok (QAResult.plainError btn_error_msg) ∧
    get_updated_html badDriver = Except.ok (QAResult.plainError html_error_msg) ∧
    find_button_name badDriver = Except.ok (QAResult.plainError btn_error_msg) ∧
    click_button badDriver = Except.ok (QAResult.plainError btn_error_msg) ∧
    enter_text_into_form_field badDriver "field" "text" =
      Except.error failing_lookup_error :=
  claim_C6_qa_error_handling badDriver failing_lookup_error
    (fun _ => rfl) (fun _ => rfl) "submit" "field" "text"

/-- C7: a configured browser family outside the supported set fails the
`options_available` lookup with a `KeyError` and no browser process is
started (the event trace is empty). -/
theorem claim_C7_unsupported_browser (browser : String) (headless : Bool)
    (h1 : browser ≠ "chrome") (h2 : browser ≠ "safari") (h3 : browser ≠ "firefox") :
    create_driver browser headless =
      (Except.error ("KeyError: " ++ browser), []) := by
  have b1 : (("chrome" : String) == browser) = false :=
    beq_eq_false_iff_ne.mpr (fun h => h1 h.symm)
  have b2 : (("safari" : String) == browser) = false :=
    beq_eq_false_iff_ne.mpr (fun h => h2 h.symm)
  have b3 : (("firefox" : String) == browser) = false :=
    beq_eq_false_iff_ne.mpr (fun h => h3 h.symm)
  simp [create_driver, dict_getitem, options_available, List.find?, b1, b2, b3]

/-- C7 witness: the unsupported browser `opera` yields the `KeyError` with an
empty event trace. -/
theorem claim_C7_witness :
    ("opera" ≠ "chrome" ∧ "opera" ≠ "safari" ∧ "opera" ≠ "firefox") ∧
    create_driver "opera" true = (Except.error ("KeyError: " ++ "opera"), []) :=
  ⟨⟨by decide, by decide, by decide⟩,
   claim_C7_unsupported_browser "opera" true (by decide) (by decide) (by decide)⟩

/-- C8 counterexample: `open_website_in_browser` (lines 49-57) returns
without ever issuing `quit` — the browser session is not released before the
routine returns, refuting the claim as stated. -/
theorem claim_C8_counterexample :
    BrowserEv.quit ∉ open_website_in_browser_trace "https://example.com" := by
  decide

/-- C8 (amended): both routines acquire exactly one fresh browser session at
the start (no pooling or reuse); `browse_website` releases it before
returning, while `open_website_in_browser` returns with the session still
open. -/
theorem claim_C8_browser_lifecycle (url : String) :
    (browse_website_trace url).head? = some BrowserEv.create ∧
    BrowserEv.quit ∈ browse_website_trace url ∧
    BrowserEv.create ∉ (browse_website_trace url).tail ∧
    (open_website_in_browser_trace url).head? = some BrowserEv.create ∧
    BrowserEv.create ∉ (open_website_in_browser_trace url).tail ∧
    BrowserEv.quit ∉ open_website_in_browser_trace url := by
  refine ⟨rfl, ?_, ?_, rfl, ?_, ?_⟩ <;>
    simp [browse_website_trace, open_website_in_browser_trace, create_driver_trace,
      scrape_text_trace, add_header_trace, scrape_links_trace, close_browser_trace]

/-- C9: the whitespace-normalization step of text extraction is idempotent:
applying it to its own output returns that output unchanged. -/
theorem claim_C9_clean_text_idempotent (s : String) :
    clean_text (clean_text s) = clean_text s :=
  congrArg (fun l => (⟨l⟩ : String)) (pyNormalize_idem s.data)

/-- C10: each of the four QA helpers with a `try/except` returns, at the
public interface, either an `ok` carrying a (message, page-context) pair (a
(message, dict) pair for `click_button`) or an `ok` carrying a bare error
string — a heterogeneous result shape, with no propagating exception. -/
theorem claim_C10_result_shape (d : SimDriver) (button_text : String) :
    ((∃ m c, navigate_by_click_button d button_text =
        Except.ok (QAResult.pairCtx m c)) ∨
      (∃ s, navigate_by_click_button d button_text =
        Except.ok (QAResult.plainError s))) ∧
    ((∃ m c, get_updated_html d = Except.ok (QAResult.pairCtx m c)) ∨
      (∃ s, get_updated_html d = Except.ok (QAResult.plainError s))) ∧
    ((∃ m c, find_button_name d = Except.ok (QAResult.pairCtx m c)) ∨
      (∃ s, find_button_name d = Except.ok (QAResult.plainError s))) ∧
    ((∃ m r, click_button d = Except.ok (QAResult.pairDict m r)) ∨
      (∃ s, click_button d = Except.ok (QAResult.plainError s))) := by
  refine ⟨?_, ?_, ?_, ?_⟩
  · cases hE : navigate_body d button_text with
    | ok ctx =>
      exact Or.inl ⟨"Current valid website context", ctx,
        by simp [navigate_by_click_button, hE]⟩
    | error e =>
      exact Or.inr ⟨btn_error_msg, by simp [navigate_by_click_button, hE]⟩
  · cases hE : get_updated_html_context d with
    | ok ctx =>
      exact Or.inl ⟨"Current valid website context", ctx,
        by simp [get_updated_html, hE]⟩
    | error e =>
      exact Or.inr ⟨html_error_msg, by simp [get_updated_html, hE]⟩
  · cases hE : get_updated_html_context d with
    | ok ctx =>
      exact Or.inl ⟨"Current valid website context", ctx,
        by simp [find_button_name, hE]⟩
    | error e =>
      exact Or.inr ⟨btn_error_msg, by simp [find_button_name, hE]⟩
  · cases hE : click_body d with
    | ok r =>
      exact Or.inl ⟨"Current valid website context", r,
        by simp [click_button, hE]⟩
    | error e =>
      exact Or.inr ⟨btn_error_msg, by simp [click_button, hE]⟩
